import Mathlib

/-!
Verification of the field-mapping and document-transformation engine of the
SARIF-to-Wiz converter (`mapping_engine.py`, `sarif_to_wiz_converter.py`).

Python values loaded from JSON are modelled by `JValue`; Python `None` and JSON
`null` coincide and are both `JValue.null`.  Python dicts are insertion-ordered
association lists.  Statements that Python can raise from are modelled in
`Except PyErr`; pure total functions stay pure.  Wall-clock timestamps
(`datetime.now`) are modelled by explicit string parameters: per-result
timestamps are drawn from a `now : Nat → String` clock indexed by the result
index at which the call happens.
-/

namespace SarifWiz

/-- A JSON-like Python value (`json.load` output).  `null` doubles as Python
`None`. -/
inductive JValue where
  | null : JValue
  | bool : Bool → JValue
  | num : Int → JValue
  | str : String → JValue
  | arr : List JValue → JValue
  | obj : List (String × JValue) → JValue

/-- First-match association-list lookup, the model of `dict.get` /
`dict.__getitem__` for insertion-ordered Python dicts. -/
def dictLookup {α : Type} : List (String × α) → String → Option α
  | [], _ => none
  | (k, v) :: t, key => if key = k then some v else dictLookup t key

/-- Python `str.lower()`, restricted to ASCII. -/
def pyLower (s : String) : String := String.mk (s.toList.map Char.toLower)

/-- Python truthiness of a JSON value (`if value:`). -/
def pyTruthy : JValue → Bool
  | .null => false
  | .bool b => b
  | .num n => n != 0
  | .str s => s ≠ ""
  | .arr xs => !xs.isEmpty
  | .obj fs => !fs.isEmpty

/-- Python sequence indexing `xs[i]` with the negative-index convention;
only ever evaluated under the bound `-len ≤ i < len`. -/
def pyListGet (xs : List JValue) (i : Int) : JValue :=
  if i < 0 then (xs.getD (i + xs.length).toNat .null) else (xs.getD i.toNat .null)

/-- One parsed path component of `MappingEngine._parse_path`: a mapping key or
an integer sequence index. -/
inductive PathPart where
  | key : String → PathPart
  | idx : Int → PathPart
deriving Repr, DecidableEq

/-- Python `str.isdigit()` on the character-buffer, restricted to ASCII:
nonempty and all decimal digits. -/
def pyIsdigit (cs : List Char) : Bool :=
  cs ≠ [] && cs.all Char.isDigit

/-- Decimal value of a digit buffer, the model of `int(current)` on a string
that passed `isdigit()`. -/
def digitsToNat (cs : List Char) : Nat :=
  cs.foldl (fun n c => n * 10 + (c.toNat - 48)) 0

/-- Parser state of `_parse_path`: the accumulated `parts` list and the
pending character buffer `current`. -/
structure ParseState where
  parts : List PathPart
  current : List Char
deriving Repr, DecidableEq

/-- One character step of the `for char in path` loop of
`MappingEngine._parse_path`. -/
def parseChar (st : ParseState) (c : Char) : ParseState :=
  if c = '.' then
    if st.current ≠ [] then ⟨st.parts ++ [.key (String.mk st.current)], []⟩ else st
  else if c = '[' then
    if st.current ≠ [] then ⟨st.parts ++ [.key (String.mk st.current)], []⟩ else st
  else if c = ']' then
    if pyIsdigit st.current then ⟨st.parts ++ [.idx (digitsToNat st.current : Int)], []⟩ else st
  else
    ⟨st.parts, st.current ++ [c]⟩

/-- `MappingEngine._parse_path` on the character sequence of the path: run the
per-character loop, then flush a nonempty trailing buffer as a key. -/
def parsePathChars (cs : List Char) : List PathPart :=
  let st := cs.foldl parseChar ⟨[], []⟩
  if st.current ≠ [] then st.parts ++ [.key (String.mk st.current)] else st.parts

/-- `MappingEngine._parse_path`. -/
def _parse_path (path : String) : List PathPart :=
  parsePathChars path.toList

/-- The segment-walking loop of `MappingEngine.extract_value`: an integer part
indexes a sequence under `-len ≤ i < len`, a key part is a `dict.get` (miss
gives `None`), anything else — including a `None` current value — yields
`None`. -/
def walkParts : JValue → List PathPart → JValue
  | cur, [] => cur
  | .arr xs, .idx i :: rest =>
      if -(xs.length : Int) ≤ i ∧ i < (xs.length : Int) then
        walkParts (pyListGet xs i) rest
      else .null
  | .obj fs, .key k :: rest => walkParts ((dictLookup fs k).getD .null) rest
  | _, _ :: _ => .null

/-- `MappingEngine.extract_value`. -/
def extract_value (obj : JValue) (path : String) : JValue :=
  walkParts obj (_parse_path path)

/-- Spec-side resolution policy, written from the specification's words: walk
the segments left to right and return the exact nested value reached; a
mapping-key miss, a type mismatch (indexing into a non-sequence or keying into
a non-mapping), or an out-of-range index under `-len ≤ i < len` resolves to
absent (`none`). -/
def resolvePolicySpec : JValue → List PathPart → Option JValue
  | cur, [] => some cur
  | .arr xs, .idx i :: rest =>
      if -(xs.length : Int) ≤ i ∧ i < (xs.length : Int) then
        resolvePolicySpec (pyListGet xs i) rest
      else none
  | .obj fs, .key k :: rest =>
      match dictLookup fs k with
      | some v => resolvePolicySpec v rest
      | none => none
  | _, _ :: _ => none

/-- Errors a modelled Python fragment can raise. -/
inductive PyErr where
  | attributeError : PyErr
  | typeError : PyErr
deriving Repr, DecidableEq

/-! ## Transformation registry (`MappingEngine._compile_transformations`) -/

/-- Parameter record of one named transformation
(`config["transformations"][name]`); an absent record is the empty dict. -/
structure TransformConfig where
  mappings : List (String × JValue)
  returns_empty_if : Option JValue
  template : Option JValue

/-- The empty transform-parameter dict (`.get(transform_name, \x7b\x7d)`). -/
def emptyTransformConfig : TransformConfig := ⟨[], none, none⟩

mutual

/-- Python `str(value)` as used by `str.format`, on JSON scalars and
containers. -/
def pyStr : JValue → String
  | .null => "None"
  | .bool b => if b then "True" else "False"
  | .num n => toString n
  | .str s => s
  | .arr xs => "[" ++ pyStrList xs ++ "]"
  | .obj fs => "\x7b" ++ pyStrObj fs ++ "\x7d"

/-- Comma-joined rendering of a sequence's elements. -/
def pyStrList : List JValue → String
  | [] => ""
  | [x] => pyStr x
  | x :: y :: t => pyStr x ++ ", " ++ pyStrList (y :: t)

/-- Comma-joined rendering of a mapping's entries. -/
def pyStrObj : List (String × JValue) → String
  | [] => ""
  | [(k, v)] => k ++ ": " ++ pyStr v
  | (k, v) :: e :: t => k ++ ": " ++ pyStr v ++ ", " ++ pyStrObj (e :: t)

end

/-- `MappingEngine._transform_map_severity`: lower-case the value and look it
up in the configured mapping, defaulting to `"Medium"`; a non-string value has
no `.lower()` and raises. -/
def _transform_map_severity (value : JValue) (transform_config : TransformConfig) :
    Except PyErr JValue :=
  match value with
  | .str s => .ok ((dictLookup transform_config.mappings (pyLower s)).getD (.str "Medium"))
  | _ => .error .attributeError

/-- `MappingEngine._transform_clean_fixed_version`. -/
def _transform_clean_fixed_version (value : JValue) (transform_config : TransformConfig) :
    Except PyErr JValue :=
  if !pyTruthy value then .ok (.str "")
  else
    match value with
    | .str s =>
        match transform_config.returns_empty_if.getD (.str "no fix available") with
        | .str r => .ok (if pyLower s = pyLower r then .str "" else .str s)
        | _ => .error .attributeError
    | _ => .error .attributeError

/-- `MappingEngine._transform_format_remediation`: substitute the value into
the configured template (default `"Update to version: {value}"`). -/
def _transform_format_remediation (value : JValue) (transform_config : TransformConfig) :
    Except PyErr JValue :=
  if !pyTruthy value then .ok (.str "")
  else
    match transform_config.template.getD (.str "Update to version: {value}") with
    | .str t => .ok (.str (t.replace "{value}" (pyStr value)))
    | _ => .error .attributeError

/-- `MappingEngine._compile_transformations`: the fixed name-indexed registry
of transformation functions. -/
def transformations :
    List (String × (JValue → TransformConfig → Except PyErr JValue)) :=
  [("map_severity", _transform_map_severity),
   ("clean_fixed_version", _transform_clean_fixed_version),
   ("format_remediation", _transform_format_remediation)]

/-! ## Mapping configuration model -/

/-- One mapping-rule record of the configuration (a dict; absent keys are
`none`). -/
structure MappingRuleRec where
  wiz_field : Option String
  source : Option String
  value : Option JValue
  sarif_path : Option String
  transform : Option String
  default : Option JValue
  enabled : Option Bool

/-- One section of `config["sarif_to_wiz_mappings"]`. -/
structure MappingSection where
  enabled : Option Bool
  mappings : List MappingRuleRec

/-- The engine's loaded configuration (`MappingEngine.config`): the
`sarif_to_wiz_mappings` sections and the `transformations` parameter records,
both insertion-ordered dicts. -/
structure EngineConfig where
  sarif_to_wiz_mappings : List (String × MappingSection)
  transformation_configs : List (String × TransformConfig)

/-- `MappingEngine.get_field_mappings`: the section's individually-enabled
rules (`enabled` defaults to true; an unknown section is the empty dict). -/
def get_field_mappings (config : EngineConfig) (sectionName : String) : List MappingRuleRec :=
  let section_config := (dictLookup config.sarif_to_wiz_mappings sectionName).getD ⟨none, []⟩
  section_config.mappings.filter (fun m => m.enabled.getD true)

/-- `MappingEngine.get_all_enabled_mappings`: every section except the
`description`/`version` entries whose section-level `enabled` flag (default
true) holds, mapped to its individually-enabled rules. -/
def get_all_enabled_mappings (config : EngineConfig) :
    List (String × List MappingRuleRec) :=
  config.sarif_to_wiz_mappings.filterMap fun p =>
    if p.1 = "description" ∨ p.1 = "version" then none
    else if p.2.enabled.getD true then some (p.1, get_field_mappings config p.1)
    else none

/-- `value is None` (`JValue.null` models Python `None`). -/
def isNull : JValue → Bool
  | .null => true
  | _ => false

/-- `MappingEngine.apply_mapping`: constant rules return the configured value;
`sarif_result` rules extract via `extract_value`, substitute the default when
the extraction is `None`, and apply a named transformation when one is set and
the value is not `None`; any other source kind yields `None`.  A rule with
`source = "sarif_result"` but no `sarif_path` hands `None` to the path parser,
which raises. -/
def apply_mapping (config : EngineConfig) (sarif_result : JValue)
    (mapping_config : MappingRuleRec) : Except PyErr (Option String × JValue) :=
  let wiz_field := mapping_config.wiz_field
  if mapping_config.source = some "constant" then
    .ok (wiz_field, mapping_config.value.getD .null)
  else if mapping_config.source = some "sarif_result" then
    match mapping_config.sarif_path with
    | none => .error .typeError
    | some sarif_path =>
      let value :=
        match extract_value sarif_result sarif_path with
        | .null => mapping_config.default.getD .null
        | v => v
      match mapping_config.transform with
      | some transform_name =>
          if transform_name ≠ "" ∧ !isNull value then
            match dictLookup transformations transform_name with
            | some transform_func =>
                let transform_config :=
                  (dictLookup config.transformation_configs transform_name).getD
                    emptyTransformConfig
                do return (wiz_field, ← transform_func value transform_config)
            | none => .ok (wiz_field, value)
          else .ok (wiz_field, value)
      | none => .ok (wiz_field, value)
  else
    .ok (wiz_field, .null)

/-! ## `MappingEngine.set_nested_field` -/

/-- Python dict assignment `d[k] = v`: overwrite in place if the key exists,
append at the end otherwise. -/
def dictSet (fs : List (String × JValue)) (k : String) (v : JValue) :
    List (String × JValue) :=
  if fs.any (fun p => p.1 = k) then
    fs.map (fun p => if p.1 = k then (k, v) else p)
  else fs ++ [(k, v)]

/-- Python `str.split` on a single separator character, accumulating the
pending segment buffer. -/
def splitChar (sep : Char) : List Char → List Char → List String
  | [], cur => [String.mk cur]
  | c :: rest, cur =>
      if c = sep then String.mk cur :: splitChar sep rest []
      else splitChar sep rest (cur ++ [c])

/-- The recursive core of `MappingEngine.set_nested_field` on the already
split segment list: create absent intermediate segments as empty dicts,
assign `value` at the last segment; descending into (or finally assigning on)
a non-dict raises, and an empty segment list would fault indexing
`parts[-1]`. -/
def setNestedParts : JValue → List String → JValue → Except PyErr JValue
  | _, [], _ => .error .typeError
  | obj, part :: rest, value =>
      match obj with
      | .obj fs =>
          match rest with
          | [] => .ok (.obj (dictSet fs part value))
          | _ :: _ => do
              let child := (dictLookup fs part).getD (.obj [])
              let newChild ← setNestedParts child rest value
              return .obj (dictSet fs part newChild)
      | _ => .error .typeError

/-- `MappingEngine.set_nested_field` (functional model of the in-place
mutation): split the path on dots and write through. -/
def set_nested_field (obj : JValue) (path : String) (value : JValue) :
    Except PyErr JValue :=
  setNestedParts obj (splitChar '.' path.toList []) value

/-- Pure nested readback along a dot path's segments, used to state what
`set_nested_field` wrote: succeeds only through mappings. -/
def getNestedParts : JValue → List String → Option JValue
  | cur, [] => some cur
  | .obj fs, part :: rest =>
      match dictLookup fs part with
      | some v => getNestedParts v rest
      | none => none
  | _, _ :: _ => none

/-! ## SARIF input shape (`sarif_to_wiz_converter.py`)

The converter reads a fixed set of keys from schema-validated SARIF dicts;
those keys are modelled as structure fields, with `Option` for keys that may
be absent.  A `locations` key absent from a result behaves exactly like an
empty list everywhere the converter looks at it, so it is modelled as a plain
list. -/

/-- `physicalLocation.artifactLocation`. -/
structure ArtifactLocation where
  uri : Option String
deriving Repr, DecidableEq

/-- `location.physicalLocation`. -/
structure PhysicalLocation where
  artifactLocation : Option ArtifactLocation
deriving Repr, DecidableEq

/-- One entry of a result's `locations` list. -/
structure Location where
  physicalLocation : Option PhysicalLocation
deriving Repr, DecidableEq

/-- `result.message`. -/
structure Message where
  text : Option String
deriving Repr, DecidableEq

/-- One SARIF `result`. -/
structure SarifResult where
  ruleId : Option String
  ruleIndex : Option Int
  level : Option String
  message : Option Message
  locations : List Location
deriving Repr, DecidableEq

/-- `run.tool.driver`. -/
structure Driver where
  name : Option String
deriving Repr, DecidableEq

/-- `run.tool`. -/
structure Tool where
  driver : Option Driver
deriving Repr, DecidableEq

/-- One SARIF `run`. -/
structure SarifRun where
  tool : Option Tool
  results : List SarifResult
deriving Repr, DecidableEq

/-- A SARIF document: its `runs` list. -/
structure SarifDoc where
  runs : List SarifRun
deriving Repr, DecidableEq

/-! ## Wiz output shape -/

/-- The polymorphic `details` variant of an asset: `repositoryBranch` when
repository metadata was supplied to the converter, `virtualMachine`
otherwise. -/
inductive AssetDetails where
  | repositoryBranch (assetId assetName branchName repositoryName repositoryUrl
      vcs firstSeen : String) : AssetDetails
  | virtualMachine (assetId name hostname firstSeen : String) : AssetDetails
deriving Repr, DecidableEq

/-- One emitted vulnerability finding.  `targetComponent` holds the
`library.filePath` URI when one was attached; `originalObject` holds the
passthrough `locations`/`ruleIndex` payload. -/
structure Finding where
  name : String
  description : String
  severity : String
  externalDetectionSource : String
  id : Option String
  targetComponent : Option String
  originalObject : Option (List Location × Int)
deriving Repr, DecidableEq

/-- One asset of a data source. -/
structure WizAsset where
  analysisDate : String
  details : AssetDetails
  vulnerabilityFindings : List Finding
deriving Repr, DecidableEq

/-- One data source (one converted run). -/
structure DataSource where
  id : String
  analysisDate : String
  assets : List WizAsset
deriving Repr, DecidableEq

/-- The assembled output document. -/
structure WizDoc where
  integrationId : String
  dataSources : List DataSource
deriving Repr, DecidableEq

/-- Converter construction parameters (`SARIFtoWizConverter.__init__`). -/
structure ConverterConfig where
  integration_id : String
  repository_name : Option String
  repository_url : Option String
deriving Repr, DecidableEq

/-- Python truthiness of an optional string (`if self.repository_name and
self.repository_url:`). -/
def truthyOpt : Option String → Bool
  | none => false
  | some s => s ≠ ""

/-! ## Conversion (`SARIFtoWizConverter`) -/

/-- `SARIFtoWizConverter._map_severity`: the fixed case-insensitive
`none/note/warning/error` lookup, defaulting to `"Medium"`. -/
def _map_severity (sarif_level : String) : String :=
  let mapping : List (String × String) :=
    [("none", "None"), ("note", "Low"), ("warning", "Medium"), ("error", "High")]
  (dictLookup mapping (pyLower sarif_level)).getD "Medium"

/-- `SARIFtoWizConverter._extract_vulnerability_finding`. -/
def _extract_vulnerability_finding (result : SarifResult) (result_idx : Nat) : Finding :=
  let message_text := (result.message.getD ⟨none⟩).text.getD ""
  let rule_id := result.ruleId.getD ("rule-" ++ toString result_idx)
  let rule_index := result.ruleIndex.getD (-1)
  let level := result.level.getD "warning"
  let severity := _map_severity level
  let finding : Finding :=
    { name := rule_id, description := message_text, severity := severity,
      externalDetectionSource := "ThirdPartyAgent",
      id := none, targetComponent := none, originalObject := none }
  let finding := if rule_id ≠ "" then { finding with id := some rule_id } else finding
  let finding :=
    match result.locations with
    | [] => finding
    | location :: _ =>
        let artifact_location :=
          ((location.physicalLocation.getD ⟨none⟩).artifactLocation.getD ⟨none⟩)
        match artifact_location.uri with
        | some uri =>
            if uri ≠ "" then { finding with targetComponent := some uri } else finding
        | none => finding
  if !result.locations.isEmpty then
    { finding with originalObject := some (result.locations, rule_index) }
  else finding

/-- `SARIFtoWizConverter._extract_asset_details`: `None` in place of the
location dict raises (`None.get`); otherwise the asset id is the artifact URI
with the `"unknown-<result_idx>"` fallback, and the details variant is chosen
by the repository metadata.  `ts` stands for the `datetime.now()` call made
inside. -/
def _extract_asset_details (config : ConverterConfig)
    (physical_location : Option PhysicalLocation) (tool_name : String)
    (result_idx : Nat) (ts : String) : Except PyErr (String × AssetDetails) :=
  match physical_location with
  | none => .error .attributeError
  | some pl =>
      let artifact_location := pl.artifactLocation.getD ⟨none⟩
      let uri := artifact_location.uri.getD ("unknown-" ++ toString result_idx)
      let asset_id := uri
      if truthyOpt config.repository_name && truthyOpt config.repository_url then
        .ok (asset_id,
          .repositoryBranch asset_id uri "main" (config.repository_name.getD "")
            (config.repository_url.getD "") "GitHub" ts)
      else
        .ok (asset_id, .virtualMachine asset_id uri uri ts)

/-- `SARIFtoWizConverter._convert_result`: `physical_location` stays `None`
when the result has no location entry. -/
def _convert_result (config : ConverterConfig) (result : SarifResult)
    (result_idx : Nat) (tool_name : String) (ts : String) :
    Except PyErr (String × AssetDetails × Finding) := do
  let physical_location : Option PhysicalLocation :=
    match result.locations with
    | [] => none
    | location :: _ => some (location.physicalLocation.getD ⟨none⟩)
  let (asset_id, asset_details) ←
    _extract_asset_details config physical_location tool_name result_idx ts
  let finding := _extract_vulnerability_finding result result_idx
  return (asset_id, asset_details, finding)

/-- `asset_id in assets_map`. -/
def containsKey (m : List (String × WizAsset)) (k : String) : Bool :=
  m.any (fun p => p.1 = k)

/-- `assets_map[asset_id]["vulnerabilityFindings"].append(finding)`. -/
def appendFinding (m : List (String × WizAsset)) (k : String) (f : Finding) :
    List (String × WizAsset) :=
  m.map fun p =>
    if p.1 = k then
      (p.1, { p.2 with vulnerabilityFindings := p.2.vulnerabilityFindings ++ [f] })
    else p

/-- One iteration of the result loop of `SARIFtoWizConverter._convert_run`:
convert the result, insert a fresh empty asset on a first-seen key, append the
finding. -/
def runStep (config : ConverterConfig) (now : Nat → String) (tool_name : String)
    (m : List (String × WizAsset)) (ir : Nat × SarifResult) :
    Except PyErr (List (String × WizAsset)) := do
  let (asset_id, asset_details, finding) ←
    _convert_result config ir.2 ir.1 tool_name (now ir.1)
  let m :=
    if containsKey m asset_id then m
    else m ++ [(asset_id,
      { analysisDate := now ir.1, details := asset_details, vulnerabilityFindings := [] })]
  return appendFinding m asset_id finding

/-- The result loop of `_convert_run` over the enumerated results. -/
def foldResults (config : ConverterConfig) (now : Nat → String) (tool_name : String) :
    List (Nat × SarifResult) → List (String × WizAsset) →
    Except PyErr (List (String × WizAsset))
  | [], m => .ok m
  | ir :: t, m => do foldResults config now tool_name t (← runStep config now tool_name m ir)

/-- `run.get("tool", \x7b\x7d).get("driver", \x7b\x7d).get("name",
"unknown-tool")`. -/
def toolNameOf (run : SarifRun) : String :=
  ((run.tool.getD ⟨none⟩).driver.getD ⟨none⟩).name.getD "unknown-tool"

/-- `SARIFtoWizConverter._convert_run`: `none` for a run with no results,
otherwise the data source assembled from the grouped assets.  `run_ts` stands
for the run-level `datetime.now()` call; `now` for the per-result ones. -/
def _convert_run (config : ConverterConfig) (now : Nat → String) (run_ts : String)
    (run : SarifRun) (run_idx : Nat) : Except PyErr (Option DataSource) :=
  match run.results with
  | [] => .ok none
  | _ => do
      let tool_name := toolNameOf run
      let m ← foldResults config now tool_name run.results.enum []
      return some
        { id := tool_name ++ "-run-" ++ toString run_idx,
          analysisDate := run_ts,
          assets := m.map Prod.snd }

/-- The run loop of `SARIFtoWizConverter.convert`: append each non-`None` data
source in run order.  The clocks are indexed by the run index. -/
def convertRuns (config : ConverterConfig) (now : Nat → Nat → String)
    (run_ts : Nat → String) : List (Nat × SarifRun) → Except PyErr (List DataSource)
  | [] => .ok []
  | (run_idx, run) :: t => do
      let ds ← _convert_run config (now run_idx) (run_ts run_idx) run run_idx
      let rest ← convertRuns config now run_ts t
      match ds with
      | some d => return d :: rest
      | none => return rest

/-- `SARIFtoWizConverter.convert`, between its two calls into the external
schema-validator collaborator (validation is delegated and not modelled
here). -/
def convert (config : ConverterConfig) (now : Nat → Nat → String)
    (run_ts : Nat → String) (sarif_doc : SarifDoc) : Except PyErr WizDoc := do
  return { integrationId := config.integration_id,
           dataSources := ← convertRuns config now run_ts sarif_doc.runs.enum }

/-! ## Theorems -/

/-- Walking `None` through any remaining segments yields `None`. -/
theorem walkParts_null (parts : List PathPart) : walkParts .null parts = .null := by
  cases parts <;> rfl

/-- The segment walk agrees with the spec's resolution policy at every
segment list. -/
theorem walkParts_eq_resolvePolicySpec (parts : List PathPart) :
    ∀ cur, walkParts cur parts = (resolvePolicySpec cur parts).getD .null := by
  induction parts with
  | nil => intro cur; cases cur <;> rfl
  | cons part rest ih =>
    intro cur
    cases cur with
    | null => cases part <;> rfl
    | bool b => cases part <;> rfl
    | num n => cases part <;> rfl
    | str s => cases part <;> rfl
    | arr xs =>
      cases part with
      | key k => rfl
      | idx i =>
        simp only [walkParts, resolvePolicySpec]
        split
        · exact ih _
        · rfl
    | obj fs =>
      cases part with
      | idx i => rfl
      | key k =>
        simp only [walkParts, resolvePolicySpec]
        cases h : dictLookup fs k with
        | some v => simpa using ih v
        | none => simp [walkParts_null]

/-- C1: for every document `d` and path string `p`, `extract_value` is a total
function returning exactly the nested value reached by resolving the parsed
segments of `p` left to right against `d`, and `None` whenever any segment is
a mapping-key miss, a type mismatch, or an out-of-range index under the
`-len ≤ i < len` convention. -/
theorem extract_value_matches_resolution_policy (d : JValue) (p : String) :
    extract_value d p = (resolvePolicySpec d (_parse_path p)).getD .null :=
  walkParts_eq_resolvePolicySpec (_parse_path p) d

/-- Field characterization of `_extract_vulnerability_finding`: the severity,
detection source, name and id of the emitted finding, in terms of the source
result. -/
theorem extract_finding_fields (result : SarifResult) (idx : Nat) :
    (_extract_vulnerability_finding result idx).severity
        = _map_severity (result.level.getD "warning") ∧
    (_extract_vulnerability_finding result idx).externalDetectionSource
        = "ThirdPartyAgent" ∧
    (_extract_vulnerability_finding result idx).name
        = result.ruleId.getD ("rule-" ++ toString idx) ∧
    (_extract_vulnerability_finding result idx).id
        = (if result.ruleId.getD ("rule-" ++ toString idx) ≠ "" then
            some (result.ruleId.getD ("rule-" ++ toString idx)) else none) := by
  unfold _extract_vulnerability_finding
  dsimp only
  cases hl : result.locations with
  | nil => by_cases hr : result.ruleId.getD ("rule-" ++ toString idx) = "" <;> simp_all
  | cons loc t =>
    cases huri : ((loc.physicalLocation.getD ⟨none⟩).artifactLocation.getD ⟨none⟩).uri with
    | none =>
        by_cases hr : result.ruleId.getD ("rule-" ++ toString idx) = "" <;> simp_all
    | some uri =>
        by_cases hu : uri = "" <;>
          by_cases hr : result.ruleId.getD ("rule-" ++ toString idx) = "" <;> simp_all

/-- C2: the fixed severity lookup sends `none/note/warning/error` (any letter
case) to `None/Low/Medium/High` respectively, sends every other string
(including the empty string) to `Medium`, and a source result with no `level`
field at all is given severity `Medium`. -/
theorem map_severity_total_lookup (s : String) (result : SarifResult) (idx : Nat) :
    (pyLower s = "none" → _map_severity s = "None") ∧
    (pyLower s = "note" → _map_severity s = "Low") ∧
    (pyLower s = "warning" → _map_severity s = "Medium") ∧
    (pyLower s = "error" → _map_severity s = "High") ∧
    (pyLower s ∉ (["none", "note", "warning", "error"] : List String) →
      _map_severity s = "Medium") ∧
    (result.level = none →
      (_extract_vulnerability_finding result idx).severity = "Medium") := by
  refine ⟨fun h => ?_, fun h => ?_, fun h => ?_, fun h => ?_, fun h => ?_, fun h => ?_⟩
  · simp [_map_severity, dictLookup, h]
  · simp [_map_severity, dictLookup, h]
  · simp [_map_severity, dictLookup, h]
  · simp [_map_severity, dictLookup, h]
  · simp only [List.mem_cons, List.not_mem_nil, or_false, not_or] at h
    obtain ⟨h1, h2, h3, h4⟩ := h
    simp [_map_severity, dictLookup, h1, h2, h3, h4]
  · rw [(extract_finding_fields result idx).1, h]
    rfl

/-- A path character that is none of the three separators `.`/`[`/`]`. -/
def plainPathChar (c : Char) : Prop := c ≠ '.' ∧ c ≠ '[' ∧ c ≠ ']'

instance (c : Char) : Decidable (plainPathChar c) := by
  unfold plainPathChar; infer_instance

/-- A non-separator character is appended to the pending buffer. -/
theorem parseChar_plain (st : ParseState) (c : Char) (h : plainPathChar c) :
    parseChar st c = ⟨st.parts, st.current ++ [c]⟩ := by
  obtain ⟨h1, h2, h3⟩ := h
  simp [parseChar, h1, h2, h3]

/-- `[` flushes a nonempty pending buffer as a key. -/
theorem parseChar_lbracket (st : ParseState) :
    parseChar st '[' =
      if st.current ≠ [] then ⟨st.parts ++ [.key (String.mk st.current)], []⟩ else st := by
  unfold parseChar
  rw [if_neg (by decide), if_pos rfl]

/-- `]` closes an index segment only on a valid digit buffer; otherwise it is
a no-op and the buffer is retained. -/
theorem parseChar_rbracket (st : ParseState) :
    parseChar st ']' =
      if pyIsdigit st.current then
        ⟨st.parts ++ [.idx (digitsToNat st.current : Int)], []⟩
      else st := by
  unfold parseChar
  rw [if_neg (by decide), if_neg (by decide), if_pos rfl]

/-- Folding the parser over separator-free characters only grows the pending
buffer. -/
theorem foldl_parseChar_plain (cs : List Char) :
    ∀ parts cur, (∀ c ∈ cs, plainPathChar c) →
      cs.foldl parseChar ⟨parts, cur⟩ = ⟨parts, cur ++ cs⟩ := by
  induction cs with
  | nil => intro parts cur _; simp
  | cons c t ih =>
    intro parts cur h
    simp only [List.foldl_cons]
    rw [parseChar_plain _ _ (h c (by simp))]
    rw [ih _ _ (fun x hx => h x (by simp [hx]))]
    simp

/-- C5 counterexample: on `"arr[x]"` the malformed bracket content is not
dropped from the parsed segment list — it is kept and flushed as the literal
key `"x"`. -/
theorem parse_path_malformed_bracket_counterexample :
    _parse_path "arr[x]" = [.key "arr", .key "x"] ∧
    _parse_path "arr[x]" ≠ [.key "arr"] := by
  constructor
  · rfl
  · decide

/-- C5 (amended): `]` closes an index segment only when the pending buffer
holds a valid non-negative integer; for a bracket whose content is not a
valid non-negative integer the `]` is a no-op — the buffer is retained, so the
bracket content is flushed as a literal key segment (not dropped, not an
error). -/
theorem parse_path_invalid_bracket_becomes_key
    (pre inner : List Char)
    (hpre : ∀ c ∈ pre, plainPathChar c) (hpren : pre ≠ [])
    (hinner : ∀ c ∈ inner, plainPathChar c) (hinnern : inner ≠ [])
    (hnd : pyIsdigit inner = false) :
    parsePathChars (pre ++ ['['] ++ inner ++ [']'])
      = [.key (String.mk pre), .key (String.mk inner)] := by
  have h1 : List.foldl parseChar ⟨[], []⟩ (pre ++ ['['] ++ inner ++ [']'])
      = ⟨[.key (String.mk pre)], inner⟩ := by
    simp only [List.foldl_append, List.foldl_cons, List.foldl_nil]
    rw [foldl_parseChar_plain pre [] [] hpre]
    rw [parseChar_lbracket, if_pos (by simpa using hpren)]
    rw [foldl_parseChar_plain inner _ [] hinner]
    rw [parseChar_rbracket, if_neg (by simp [hnd])]
    simp
  unfold parsePathChars
  rw [h1]
  simp [hinnern]

/-- Concrete instance of the amended bracket-parsing theorem. -/
theorem parse_path_invalid_bracket_becomes_key_witness :
    parsePathChars (['a', 'r', 'r'] ++ ['['] ++ ['x'] ++ [']'])
      = [.key (String.mk ['a', 'r', 'r']), .key (String.mk ['x'])] :=
  parse_path_invalid_bracket_becomes_key ['a', 'r', 'r'] ['x']
    (by decide) (by decide) (by decide) (by decide) (by decide)

/-- After a dict assignment the key reads back as the assigned value. -/
theorem dictLookup_dictSet (fs : List (String × JValue)) (k : String) (v : JValue) :
    dictLookup (dictSet fs k v) k = some v := by
  unfold dictSet
  split
  · rename_i h
    induction fs with
    | nil => simp at h
    | cons p t ih =>
      simp only [List.map_cons]
      by_cases hp : p.1 = k
      · rw [if_pos hp]
        simp [dictLookup]
      · rw [if_neg hp]
        simp only [List.any_cons, Bool.or_eq_true, decide_eq_true_eq] at h
        rcases h with h | h
        · exact absurd h hp
        · rw [dictLookup, if_neg (fun hh => hp hh.symm)]
          exact ih (by simpa using h)
  · rename_i h
    induction fs with
    | nil => simp [dictLookup]
    | cons p t ih =>
      simp only [List.any_cons, Bool.or_eq_true, decide_eq_true_eq, not_or] at h
      obtain ⟨h1, h2⟩ := h
      simp only [List.cons_append, dictLookup]
      rw [if_neg (fun hh => h1 hh.symm)]
      exact ih (by simpa using h2)

/-- Every entry of a dict after assigning `k ↦ v` whose key is `k` is exactly
`(k, v)`. -/
theorem dictSet_entry_at_key (fs : List (String × JValue)) (k : String) (v : JValue) :
    ∀ p ∈ dictSet fs k v, p.1 = k → p = (k, v) := by
  intro p hp hk
  unfold dictSet at hp
  by_cases hany : fs.any (fun q => q.1 = k) = true
  · rw [if_pos hany] at hp
    obtain ⟨q, hq, rfl⟩ := List.mem_map.mp hp
    by_cases h : q.1 = k
    · rw [if_pos h]
    · rw [if_neg h] at hk ⊢
      exact absurd hk h
  · rw [if_neg hany] at hp
    rcases List.mem_append.mp hp with h | h
    · exfalso
      apply hany
      simp only [List.any_eq_true, decide_eq_true_eq]
      exact ⟨p, h, hk⟩
    · simpa using h

/-- The key is present after a dict assignment. -/
theorem containsKey_dictSet (fs : List (String × JValue)) (k : String) (v : JValue) :
    (dictSet fs k v).any (fun p => p.1 = k) = true := by
  unfold dictSet
  split
  · rename_i h
    simp only [List.any_eq_true, decide_eq_true_eq] at h ⊢
    obtain ⟨p, hp, hpk⟩ := h
    exact ⟨(k, v), List.mem_map.mpr ⟨p, hp, by rw [if_pos hpk]⟩, rfl⟩
  · simp

/-- Assigning the same value twice to the same key is a no-op the second
time. -/
theorem dictSet_idem (fs : List (String × JValue)) (k : String) (v : JValue) :
    dictSet (dictSet fs k v) k v = dictSet fs k v := by
  conv_lhs => rw [dictSet]
  rw [if_pos (containsKey_dictSet fs k v)]
  have h : ∀ p ∈ dictSet fs k v, (if p.1 = k then (k, v) else p) = p := by
    intro p hp
    by_cases hpk : p.1 = k
    · rw [if_pos hpk, dictSet_entry_at_key fs k v p hp hpk]
    · rw [if_neg hpk]
  calc (dictSet fs k v).map (fun p => if p.1 = k then (k, v) else p)
      = (dictSet fs k v).map id := List.map_congr_left h
    _ = dictSet fs k v := List.map_id _

/-- A successful nested write can be read back along the same segments, and
re-running the same write is a no-op. -/
theorem setNestedParts_ok (parts : List String) :
    ∀ (obj v r : JValue), setNestedParts obj parts v = .ok r →
      getNestedParts r parts = some v ∧ setNestedParts r parts v = .ok r := by
  induction parts with
  | nil => intro obj v r h; simp [setNestedParts] at h
  | cons p rest ih =>
    intro obj v r h
    cases obj with
    | obj fs =>
      cases rest with
      | nil =>
        simp only [setNestedParts, Except.ok.injEq] at h
        subst h
        refine ⟨by simp [getNestedParts, dictLookup_dictSet], ?_⟩
        simp [setNestedParts, dictSet_idem]
      | cons q rest2 =>
        rw [show setNestedParts (JValue.obj fs) (p :: q :: rest2) v
            = (do
                let newChild ← setNestedParts ((dictLookup fs p).getD (.obj [])) (q :: rest2) v
                return JValue.obj (dictSet fs p newChild)) from rfl] at h
        cases hc : setNestedParts ((dictLookup fs p).getD (.obj [])) (q :: rest2) v with
        | error e =>
          rw [hc] at h
          exact Except.noConfusion (show Except.error e = Except.ok r from h)
        | ok nc =>
          rw [hc] at h
          have h3 : JValue.obj (dictSet fs p nc) = r :=
            Except.ok.inj
              (show Except.ok (JValue.obj (dictSet fs p nc)) = Except.ok r from h)
          subst h3
          obtain ⟨hget, hidem⟩ := ih _ _ _ hc
          constructor
          · simp [getNestedParts, dictLookup_dictSet, hget]
          · rw [show setNestedParts (JValue.obj (dictSet fs p nc)) (p :: q :: rest2) v
                  = (do
                      let newChild ← setNestedParts
                        ((dictLookup (dictSet fs p nc) p).getD (.obj [])) (q :: rest2) v
                      return JValue.obj (dictSet (dictSet fs p nc) p newChild)) from rfl,
                dictLookup_dictSet, Option.getD_some, hidem]
            show Except.ok (JValue.obj (dictSet (dictSet fs p nc) p nc))
                = Except.ok (JValue.obj (dictSet fs p nc))
            rw [dictSet_idem]
    | null => cases rest <;> simp [setNestedParts] at h
    | bool b => cases rest <;> simp [setNestedParts] at h
    | num n => cases rest <;> simp [setNestedParts] at h
    | str s => cases rest <;> simp [setNestedParts] at h
    | arr xs => cases rest <;> simp [setNestedParts] at h

/-- C9: a successful `set_nested_field` on a dot-separated path has assigned
`value` at the final segment — it reads back along the same segments, through
mappings it created or reused at every intermediate segment — overwriting any
prior value there, and it is idempotent per path: re-applying the same write
to its own output is a no-op. -/
theorem set_nested_field_writes_and_idempotent (obj : JValue) (path : String)
    (value r : JValue) (h : set_nested_field obj path value = .ok r) :
    getNestedParts r (splitChar '.' path.toList []) = some value ∧
    set_nested_field r path value = .ok r :=
  setNestedParts_ok (splitChar '.' path.toList []) obj value r h

/-- Concrete instance of the nested-write theorem. -/
theorem set_nested_field_writes_and_idempotent_witness :
    getNestedParts (JValue.obj [("a", .obj [("b", .str "x")])])
        (splitChar '.' "a.b".toList []) = some (.str "x") ∧
    set_nested_field (JValue.obj [("a", .obj [("b", .str "x")])]) "a.b" (.str "x")
      = .ok (JValue.obj [("a", .obj [("b", .str "x")])]) :=
  set_nested_field_writes_and_idempotent (JValue.obj []) "a.b" (.str "x")
    (JValue.obj [("a", .obj [("b", .str "x")])]) rfl

/-- A lookup over entries that never carry the key, after a key-preserving
`filterMap`, misses. -/
theorem dictLookup_filterMap_none {α β : Type}
    (f : (String × α) → Option (String × β)) (l : List (String × α)) (key : String)
    (hkey : ∀ p q, f p = some q → q.1 = p.1)
    (hnone : ∀ p ∈ l, p.1 = key → f p = none) :
    dictLookup (l.filterMap f) key = none := by
  induction l with
  | nil => rfl
  | cons p t ih =>
    rw [List.filterMap_cons]
    cases hf : f p with
    | none => exact ih (fun q hq hqk => hnone q (by simp [hq]) hqk)
    | some q =>
      have hq1 : q.1 = p.1 := hkey p q hf
      have hpk : p.1 ≠ key := by
        intro hh
        rw [hnone p (by simp) hh] at hf
        exact Option.noConfusion hf
      rw [dictLookup, if_neg (fun hh => hpk (by rw [← hq1, ← hh]))]
      exact ih (fun x hx hxk => hnone x (by simp [hx]) hxk)

/-- In a dict with no duplicate keys, every entry is found by looking up its
own key. -/
theorem dictLookup_of_mem_nodup {α : Type} (l : List (String × α))
    (hnd : (l.map Prod.fst).Nodup) (p : String × α) (hp : p ∈ l) :
    dictLookup l p.1 = some p.2 := by
  induction l with
  | nil => cases hp
  | cons q t ih =>
    rcases List.mem_cons.mp hp with rfl | hp2
    · rw [dictLookup, if_pos rfl]
    · rw [dictLookup]
      have hq : q.1 ≠ p.1 := by
        intro hh
        have hmem : p.1 ∈ t.map Prod.fst := List.mem_map.mpr ⟨p, hp2, rfl⟩
        rw [List.map_cons] at hnd
        exact (List.nodup_cons.mp hnd).1 (hh ▸ hmem)
      rw [if_neg (fun hh => hq hh.symm)]
      exact ih (by rw [List.map_cons] at hnd; exact (List.nodup_cons.mp hnd).2) hp2

/-- An individually-enabled rule inside a section whose own flag is off. -/
def c7Rule : MappingRuleRec :=
  { wiz_field := some "name", source := some "sarif_result", value := none,
    sarif_path := some "ruleId", transform := none, default := none,
    enabled := some true }

/-- A section disabled at section level but holding `c7Rule`. -/
def c7Section : MappingSection := { enabled := some false, mappings := [c7Rule] }

/-- Configuration with only the disabled section. -/
def c7Config : EngineConfig :=
  { sarif_to_wiz_mappings := [("finding_level", c7Section)],
    transformation_configs := [] }

/-- C7 counterexample: `get_field_mappings` does not consult the section-level
`enabled` flag — for a disabled section holding an individually-enabled rule
it returns that rule, not the empty list. -/
theorem get_field_mappings_ignores_section_enabled_counterexample :
    get_field_mappings c7Config "finding_level" = [c7Rule] ∧
    get_field_mappings c7Config "finding_level" ≠ [] :=
  ⟨rfl, fun h =>
    List.noConfusion
      ((rfl : get_field_mappings c7Config "finding_level" = [c7Rule]).symm.trans h)⟩

/-- C7 (amended): `get_field_mappings` returns a section's individually-enabled
rules regardless of the section-level `enabled` flag; section-level
`enabled=false` suppresses the section only in `get_all_enabled_mappings`,
which omits the section from its result entirely. -/
theorem disabled_section_rules_still_returned
    (config : EngineConfig) (name : String) (sc : MappingSection)
    (hnd : (config.sarif_to_wiz_mappings.map Prod.fst).Nodup)
    (hmem : (name, sc) ∈ config.sarif_to_wiz_mappings)
    (hdis : sc.enabled = some false) :
    get_field_mappings config name
      = sc.mappings.filter (fun m => m.enabled.getD true) ∧
    dictLookup (get_all_enabled_mappings config) name = none := by
  have hlk : dictLookup config.sarif_to_wiz_mappings name = some sc :=
    dictLookup_of_mem_nodup _ hnd (name, sc) hmem
  constructor
  · unfold get_field_mappings
    rw [hlk]
    rfl
  · unfold get_all_enabled_mappings
    apply dictLookup_filterMap_none
    · intro p q hf
      by_cases h1 : p.1 = "description" ∨ p.1 = "version"
      · rw [if_pos h1] at hf; exact Option.noConfusion hf
      · rw [if_neg h1] at hf
        by_cases h2 : p.2.enabled.getD true = true
        · rw [if_pos h2] at hf
          rw [← Option.some.inj hf]
        · rw [if_neg h2] at hf; exact Option.noConfusion hf
    · intro p hp hpk
      have hpsc : p.2 = sc := by
        have h2 := dictLookup_of_mem_nodup _ hnd p hp
        rw [hpk, hlk] at h2
        exact (Option.some.inj h2).symm
      by_cases h1 : p.1 = "description" ∨ p.1 = "version"
      · rw [if_pos h1]
      · rw [if_neg h1, hpsc, hdis]
        rfl

/-- Concrete instance of the amended section-enabled theorem. -/
theorem disabled_section_rules_still_returned_witness :
    get_field_mappings c7Config "finding_level"
      = c7Section.mappings.filter (fun m => m.enabled.getD true) ∧
    dictLookup (get_all_enabled_mappings c7Config) "finding_level" = none :=
  disabled_section_rules_still_returned c7Config "finding_level" c7Section
    (by simp [c7Config]) (by simp [c7Config]) rfl

/-- C8: an extracted-kind rule naming a transform outside the registry returns
the extracted (or defaulted) value unchanged — the unknown name behaves as the
identity (the rule is equivalent to the same rule without a transform) and the
mapping succeeds. -/
theorem apply_mapping_unknown_transform_identity
    (config : EngineConfig) (sarif_result : JValue) (mc : MappingRuleRec)
    (t p : String)
    (hsrc : mc.source = some "sarif_result")
    (hpath : mc.sarif_path = some p)
    (ht : mc.transform = some t)
    (hunknown : t ∉ (["map_severity", "clean_fixed_version", "format_remediation"] :
      List String)) :
    apply_mapping config sarif_result mc
      = apply_mapping config sarif_result { mc with transform := none } ∧
    ∃ v, apply_mapping config sarif_result mc = .ok (mc.wiz_field, v) := by
  have hlk : dictLookup transformations t = none := by
    simp only [List.mem_cons, not_or] at hunknown
    obtain ⟨h1, h2, h3, _⟩ := hunknown
    simp [transformations, dictLookup, h1, h2, h3]
  obtain ⟨wf, src, val, sp, tr, dflt, en⟩ := mc
  dsimp only at hsrc hpath ht ⊢
  subst hsrc; subst hpath; subst ht
  constructor
  · unfold apply_mapping
    dsimp only
    rw [if_neg (by simp), if_pos rfl, hlk]
    split <;> rfl
  · unfold apply_mapping
    dsimp only
    rw [if_neg (by simp), if_pos rfl, hlk]
    split <;> exact ⟨_, rfl⟩

/-- An extracted-kind rule with an unregistered transform name. -/
def c8Rule : MappingRuleRec :=
  { wiz_field := some "f", source := some "sarif_result", value := none,
    sarif_path := some "ruleId", transform := some "bogus", default := none,
    enabled := none }

/-- Concrete instance of the unknown-transform theorem. -/
theorem apply_mapping_unknown_transform_identity_witness :
    apply_mapping ⟨[], []⟩ (.obj [("ruleId", .str "R1")]) c8Rule
      = apply_mapping ⟨[], []⟩ (.obj [("ruleId", .str "R1")])
          { c8Rule with transform := none } ∧
    ∃ v, apply_mapping ⟨[], []⟩ (.obj [("ruleId", .str "R1")]) c8Rule
      = .ok (c8Rule.wiz_field, v) :=
  apply_mapping_unknown_transform_identity ⟨[], []⟩ (.obj [("ruleId", .str "R1")])
    c8Rule "bogus" "ruleId" rfl rfl rfl (by decide)

/-- C6: a result with no location entry never reaches the `unknown-<idx>`
fallback — `physical_location` stays `None` and `_extract_asset_details`
calls `.get` on it, so the conversion of such a result raises
`AttributeError` instead of producing an asset and finding. -/
theorem convert_result_no_locations_raises
    (config : ConverterConfig) (result : SarifResult) (result_idx : Nat)
    (tool_name ts : String) (h : result.locations = []) :
    _convert_result config result result_idx tool_name ts
      = .error .attributeError := by
  unfold _convert_result
  rw [h]
  rfl

/-- Concrete instance of the missing-locations failure. -/
theorem convert_result_no_locations_raises_witness :
    _convert_result ⟨"sarif-integration", none, none⟩ ⟨none, none, none, none, []⟩
        0 "tool" "t0" = .error .attributeError :=
  convert_result_no_locations_raises ⟨"sarif-integration", none, none⟩
    ⟨none, none, none, none, []⟩ 0 "tool" "t0" rfl

/-- The fixed severity lookup only ever produces the four values
`None/Low/Medium/High`. -/
theorem map_severity_range (s : String) :
    _map_severity s = "None" ∨ _map_severity s = "Low" ∨
    _map_severity s = "Medium" ∨ _map_severity s = "High" := by
  unfold _map_severity
  simp only [dictLookup]
  repeat' split
  all_goals simp

/-- A source result whose `ruleId` is present but empty. -/
def c10Result : SarifResult := ⟨some "", none, some "error", none, []⟩

/-- C10 counterexample: when the source `ruleId` is the empty string the
emitted finding carries no `id` field at all (and its name is empty), so the
`id` field is not always present. -/
theorem emitted_finding_id_counterexample :
    (_extract_vulnerability_finding c10Result 0).id = none ∧
    (_extract_vulnerability_finding c10Result 0).name = "" :=
  ⟨rfl, rfl⟩

/-- C10 (amended): every emitted finding has severity in the four-value set
(never `"Critical"`), detection source `"ThirdPartyAgent"`, and name equal to
the source `ruleId` (or the synthetic `rule-<result_index>` when `ruleId` is
absent); `id` is present and equal to the name exactly when the name is
nonempty — the empty-string `ruleId` case leaves `id` absent. -/
theorem emitted_finding_invariants (result : SarifResult) (idx : Nat) :
    ((_extract_vulnerability_finding result idx).severity = "None" ∨
     (_extract_vulnerability_finding result idx).severity = "Low" ∨
     (_extract_vulnerability_finding result idx).severity = "Medium" ∨
     (_extract_vulnerability_finding result idx).severity = "High") ∧
    (_extract_vulnerability_finding result idx).severity ≠ "Critical" ∧
    (_extract_vulnerability_finding result idx).externalDetectionSource
      = "ThirdPartyAgent" ∧
    (_extract_vulnerability_finding result idx).name
      = result.ruleId.getD ("rule-" ++ toString idx) ∧
    ((_extract_vulnerability_finding result idx).name ≠ "" →
      (_extract_vulnerability_finding result idx).id
        = some (_extract_vulnerability_finding result idx).name) ∧
    ((_extract_vulnerability_finding result idx).name = "" →
      (_extract_vulnerability_finding result idx).id = none) := by
  obtain ⟨hs, he, hn, hi⟩ := extract_finding_fields result idx
  refine ⟨?_, ?_, he, hn, ?_, ?_⟩
  · rw [hs]; exact map_severity_range _
  · rw [hs]
    rcases map_severity_range (result.level.getD "warning") with h | h | h | h <;> simp [h]
  · intro hne
    rw [hn] at hne
    rw [hi, if_pos hne, hn]
  · intro hze
    rw [hn] at hze
    rw [hi, if_neg (by simp [hze])]

/-- Concrete instance of the finding-invariants theorem. -/
theorem emitted_finding_invariants_witness :
    (_extract_vulnerability_finding ⟨some "r", none, none, none, []⟩ 0).id
      = some "r" := by
  have h := (emitted_finding_invariants ⟨some "r", none, none, none, []⟩ 0).2.2.2.2.1
    (by decide)
  exact h

/-- A run with an empty results list converts to `None` (no data source). -/
theorem convert_run_empty (config : ConverterConfig) (now : Nat → String)
    (run_ts : String) (run : SarifRun) (run_idx : Nat) (h : run.results = []) :
    _convert_run config now run_ts run run_idx = .ok none := by
  unfold _convert_run
  rw [h]

/-- Under success, `_convert_run` yields `None` exactly for an empty results
list. -/
theorem convert_run_none_iff (config : ConverterConfig) (now : Nat → String)
    (run_ts : String) (run : SarifRun) (run_idx : Nat) (res : Option DataSource)
    (h : _convert_run config now run_ts run run_idx = .ok res) :
    (res = none ↔ run.results = []) := by
  cases hr : run.results with
  | nil =>
    rw [convert_run_empty config now run_ts run run_idx hr] at h
    simp [(Except.ok.inj h).symm]
  | cons r rs =>
    unfold _convert_run at h
    rw [hr] at h
    have h2 : (do
        let m ← foldResults config now (toolNameOf run) ((r :: rs).enum) []
        pure (some ({ id := toolNameOf run ++ "-run-" ++ toString run_idx,
                      analysisDate := run_ts,
                      assets := List.map Prod.snd m } : DataSource))
          : Except PyErr (Option DataSource)) = Except.ok res := h
    cases hf : foldResults config now (toolNameOf run) ((r :: rs).enum) [] with
    | error e =>
        rw [hf] at h2
        exact Except.noConfusion (show Except.error e = Except.ok res from h2)
    | ok m =>
        rw [hf] at h2
        have hsome := Except.ok.inj h2
        constructor
        · intro hres
          rw [hres] at hsome
          exact Option.noConfusion hsome
        · intro hc
          exact List.noConfusion hc

/-- Length of `convertRuns` output: one data source per run with a nonempty
results list. -/
theorem convertRuns_length (config : ConverterConfig) (now : Nat → Nat → String)
    (run_ts : Nat → String) :
    ∀ (l : List (Nat × SarifRun)) (dss : List DataSource),
      convertRuns config now run_ts l = .ok dss →
      dss.length = (l.filter (fun ir => !ir.2.results.isEmpty)).length := by
  intro l
  induction l with
  | nil =>
    intro dss h
    rw [(Except.ok.inj h).symm]
    rfl
  | cons ir t ih =>
    intro dss h
    unfold convertRuns at h
    cases hds : _convert_run config (now ir.1) (run_ts ir.1) ir.2 ir.1 with
    | error e =>
        rw [hds] at h
        exact Except.noConfusion (show Except.error e = Except.ok dss from h)
    | ok res =>
        rw [hds] at h
        cases hrest : convertRuns config now run_ts t with
        | error e =>
            rw [hrest] at h
            exact Except.noConfusion (show Except.error e = Except.ok dss from h)
        | ok rest =>
            rw [hrest] at h
            cases res with
            | some d =>
                have hdss : d :: rest = dss := Except.ok.inj h
                have hne : ir.2.results ≠ [] := by
                  intro hemp
                  have hnone :=
                    (convert_run_none_iff config (now ir.1) (run_ts ir.1) ir.2 ir.1
                      (some d) hds).mpr hemp
                  exact Option.noConfusion hnone
                rw [← hdss, List.filter_cons, if_pos (by simpa using hne)]
                simp [ih rest hrest]
            | none =>
                have hdss : rest = dss := Except.ok.inj h
                have hemp : ir.2.results = [] :=
                  (convert_run_none_iff config (now ir.1) (run_ts ir.1) ir.2 ir.1
                    none hds).mp rfl
                rw [← hdss, List.filter_cons, if_neg (by simp [hemp])]
                exact ih rest hrest

/-- Filtering an enumerated list on the payload keeps as many elements as
filtering the list itself. -/
theorem length_filter_enumFrom {α : Type} (p : α → Bool) :
    ∀ (l : List α) (n : Nat),
      ((l.enumFrom n).filter (fun ir => p ir.2)).length = (l.filter p).length := by
  intro l
  induction l with
  | nil => intro n; rfl
  | cons x t ih =>
    intro n
    show ((( n, x) :: t.enumFrom (n + 1)).filter (fun ir => p ir.2)).length
        = ((x :: t).filter p).length
    rw [List.filter_cons, List.filter_cons]
    by_cases hp : p x
    · simp only [hp, if_pos]
      simp [ih]
    · simp only [hp]
      simp [ih]

/-- C4: a run whose results list is empty contributes no DataSource, and the
output document's `dataSources` length equals the number of runs with at
least one result. -/
theorem converted_dataSources_count (config : ConverterConfig)
    (now : Nat → Nat → String) (run_ts : Nat → String) (doc : SarifDoc)
    (w : WizDoc) (h : convert config now run_ts doc = .ok w) :
    w.dataSources.length
      = (doc.runs.filter (fun run => !run.results.isEmpty)).length := by
  unfold convert at h
  cases hc : convertRuns config now run_ts doc.runs.enum with
  | error e =>
      rw [hc] at h
      exact Except.noConfusion (show Except.error e = Except.ok w from h)
  | ok dss =>
      rw [hc] at h
      have hw : { integrationId := config.integration_id, dataSources := dss : WizDoc }
          = w := Except.ok.inj h
      rw [← hw]
      show dss.length = _
      rw [convertRuns_length config now run_ts doc.runs.enum dss hc]
      exact length_filter_enumFrom (fun run => !run.results.isEmpty) doc.runs 0

/-- A two-run document, the first run empty, the second with one located
result. -/
def c4Doc : SarifDoc :=
  ⟨[⟨none, []⟩,
    ⟨none, [⟨some "r", none, some "error", none,
      [⟨some ⟨some ⟨some "f.c"⟩⟩⟩]⟩]⟩]⟩

/-- Concrete instance of the data-source count theorem: two runs, one of them
empty, produce exactly one data source. -/
theorem converted_dataSources_count_witness :
    ∃ w, convert ⟨"i", none, none⟩ (fun _ _ => "ts") (fun _ => "ts") c4Doc = .ok w ∧
      w.dataSources.length = 1 :=
  ⟨_, rfl,
    (converted_dataSources_count ⟨"i", none, none⟩ (fun _ _ => "ts") (fun _ => "ts")
      c4Doc _ rfl).trans rfl⟩

/-! ## Grouping of results into assets -/

/-- The asset grouping key the conversion derives for a result: the first
location's artifact URI with the `unknown-<result_idx>` fallback.  (For a
result with no location at all this is the claim's synthetic key; the code
itself faults there, see `convert_result_no_locations_raises`.) -/
def assetKeyOf (result : SarifResult) (result_idx : Nat) : String :=
  match result.locations with
  | [] => "unknown-" ++ toString result_idx
  | location :: _ =>
      ((location.physicalLocation.getD ⟨none⟩).artifactLocation.getD ⟨none⟩).uri.getD
        ("unknown-" ++ toString result_idx)

/-- The details record the conversion derives for a result. -/
def assetDetailsOf (config : ConverterConfig) (result : SarifResult)
    (result_idx : Nat) (ts : String) : AssetDetails :=
  if truthyOpt config.repository_name && truthyOpt config.repository_url then
    .repositoryBranch (assetKeyOf result result_idx) (assetKeyOf result result_idx)
      "main" (config.repository_name.getD "") (config.repository_url.getD "")
      "GitHub" ts
  else
    .virtualMachine (assetKeyOf result result_idx) (assetKeyOf result result_idx)
      (assetKeyOf result result_idx) ts

/-- A located result converts to exactly its derived key, details and
finding. -/
theorem convert_result_located (config : ConverterConfig) (result : SarifResult)
    (result_idx : Nat) (tool_name ts : String) (loc : Location)
    (lrest : List Location) (h : result.locations = loc :: lrest) :
    _convert_result config result result_idx tool_name ts
      = .ok (assetKeyOf result result_idx,
             assetDetailsOf config result result_idx ts,
             _extract_vulnerability_finding result result_idx) := by
  unfold _convert_result _extract_asset_details assetDetailsOf assetKeyOf
  rw [h]
  dsimp only
  split <;> rfl

/-- The findings of the (index, result) pairs whose derived key is `k`, in
source order. -/
def findingsFor (k : String) (irs : List (Nat × SarifResult)) : List Finding :=
  (irs.filter (fun ir => assetKeyOf ir.2 ir.1 = k)).map
    (fun ir => _extract_vulnerability_finding ir.2 ir.1)

theorem findingsFor_cons (k : String) (ir : Nat × SarifResult)
    (t : List (Nat × SarifResult)) :
    findingsFor k (ir :: t)
      = if assetKeyOf ir.2 ir.1 = k then
          _extract_vulnerability_finding ir.2 ir.1 :: findingsFor k t
        else findingsFor k t := by
  unfold findingsFor
  rw [List.filter_cons]
  by_cases h : assetKeyOf ir.2 ir.1 = k
  · simp [h]
  · simp [h]

/-- Spec-side grouping: one asset per first-seen key; the first occurrence of
a key fixes the asset's timestamp and details, and every occurrence
contributes its finding in source order. -/
def groupSpec (config : ConverterConfig) (now : Nat → String) :
    List (Nat × SarifResult) → List (String × WizAsset)
  | [] => []
  | ir :: t =>
      (assetKeyOf ir.2 ir.1,
        { analysisDate := now ir.1,
          details := assetDetailsOf config ir.2 ir.1 (now ir.1),
          vulnerabilityFindings :=
            _extract_vulnerability_finding ir.2 ir.1
              :: findingsFor (assetKeyOf ir.2 ir.1) t })
      :: groupSpec config now
          (t.filter (fun jr => assetKeyOf jr.2 jr.1 ≠ assetKeyOf ir.2 ir.1))
termination_by l => l.length
decreasing_by simp_wf; exact Nat.lt_succ_of_le (List.length_filter_le _ _)

/-- No entry of `m` carries the key when `containsKey` fails. -/
theorem containsKey_false_forall (m : List (String × WizAsset)) (k : String)
    (h : containsKey m k = false) : ∀ p ∈ m, p.1 ≠ k := by
  intro p hp hk
  unfold containsKey at h
  rw [List.any_eq_false] at h
  exact h p hp (by simp [hk])

/-- `appendFinding` never changes an entry's key. -/
theorem fst_appendFinding_entry (k : String) (f : Finding) (p : String × WizAsset) :
    (if p.1 = k then
        (p.1, { p.2 with vulnerabilityFindings := p.2.vulnerabilityFindings ++ [f] })
      else p).1 = p.1 := by
  split <;> rfl

/-- `appendFinding` preserves key membership. -/
theorem containsKey_appendFinding (m : List (String × WizAsset)) (k x : String)
    (f : Finding) : containsKey (appendFinding m k f) x = containsKey m x := by
  unfold containsKey appendFinding
  induction m with
  | nil => rfl
  | cons p t ih =>
      simp only [List.map_cons, List.any_cons]
      rw [fst_appendFinding_entry, ih]

/-- Key membership after appending one fresh entry. -/
theorem containsKey_append_single (m : List (String × WizAsset)) (k x : String)
    (a : WizAsset) :
    containsKey (m ++ [(k, a)]) x = (containsKey m x || decide (k = x)) := by
  unfold containsKey
  rw [List.any_append]
  simp [List.any_cons]

/-- Appending a finding under a key held only by the freshly appended entry
touches only that entry. -/
theorem appendFinding_fresh (m : List (String × WizAsset)) (k : String)
    (a : WizAsset) (f : Finding) (h : containsKey m k = false) :
    appendFinding (m ++ [(k, a)]) k f
      = m ++ [(k, { a with vulnerabilityFindings := a.vulnerabilityFindings ++ [f] })] := by
  unfold appendFinding
  rw [List.map_append]
  congr 1
  · calc m.map (fun p => if p.1 = k then
          (p.1, { p.2 with vulnerabilityFindings := p.2.vulnerabilityFindings ++ [f] })
        else p)
        = m.map id := List.map_congr_left (by
            intro p hp
            rw [if_neg (containsKey_false_forall m k h p hp)]
            rfl)
      _ = m := List.map_id _
  · simp

/-- One iteration of the result loop on a located result: reuse or create the
asset for the derived key and append the finding. -/
theorem runStep_located (config : ConverterConfig) (now : Nat → String)
    (tool_name : String) (m : List (String × WizAsset)) (ir : Nat × SarifResult)
    (loc : Location) (lrest : List Location) (hl : ir.2.locations = loc :: lrest) :
    runStep config now tool_name m ir
      = .ok (appendFinding
          (if containsKey m (assetKeyOf ir.2 ir.1) then m
           else m ++ [(assetKeyOf ir.2 ir.1,
             { analysisDate := now ir.1,
               details := assetDetailsOf config ir.2 ir.1 (now ir.1),
               vulnerabilityFindings := [] })])
          (assetKeyOf ir.2 ir.1)
          (_extract_vulnerability_finding ir.2 ir.1)) := by
  unfold runStep
  rw [convert_result_located config ir.2 ir.1 tool_name (now ir.1) loc lrest hl]
  rfl

/-- The result-loop grouping invariant: folding located results over an
existing assets map extends every existing asset with its matching findings
in source order and appends the grouped assets of the new keys in first-seen
order. -/
theorem foldResults_grouping (config : ConverterConfig) (now : Nat → String)
    (tool_name : String) (irs : List (Nat × SarifResult)) :
    ∀ (m : List (String × WizAsset)),
      (∀ ir ∈ irs, ir.2.locations ≠ []) →
      foldResults config now tool_name irs m
        = .ok (m.map (fun p =>
              (p.1, { p.2 with vulnerabilityFindings :=
                        p.2.vulnerabilityFindings ++ findingsFor p.1 irs }))
            ++ groupSpec config now
                (irs.filter (fun ir => !containsKey m (assetKeyOf ir.2 ir.1)))) := by
  induction irs with
  | nil =>
    intro m _
    show Except.ok m = _
    simp [findingsFor, groupSpec]
  | cons ir t ih =>
    intro m hloc
    obtain ⟨loc, lrest, hl⟩ : ∃ loc lrest, ir.2.locations = loc :: lrest := by
      cases hh : ir.2.locations with
      | nil => exact absurd hh (hloc ir (by simp))
      | cons a b => exact ⟨a, b, rfl⟩
    have hloct : ∀ jr ∈ t, jr.2.locations ≠ [] := fun jr hj => hloc jr (by simp [hj])
    rw [show foldResults config now tool_name (ir :: t) m
        = bind (runStep config now tool_name m ir)
            (fun m2 => foldResults config now tool_name t m2) from rfl]
    rw [runStep_located config now tool_name m ir loc lrest hl]
    show foldResults config now tool_name t _ = _
    by_cases hck : containsKey m (assetKeyOf ir.2 ir.1) = true
    · -- the key already has an asset: only the finding list grows
      rw [if_pos hck]
      rw [ih (appendFinding m (assetKeyOf ir.2 ir.1)
            (_extract_vulnerability_finding ir.2 ir.1)) hloct]
      have hmapA : (appendFinding m (assetKeyOf ir.2 ir.1)
            (_extract_vulnerability_finding ir.2 ir.1)).map (fun p =>
              (p.1, { p.2 with vulnerabilityFindings :=
                        p.2.vulnerabilityFindings ++ findingsFor p.1 t }))
          = m.map (fun p =>
              (p.1, { p.2 with vulnerabilityFindings :=
                        p.2.vulnerabilityFindings ++ findingsFor p.1 (ir :: t) })) := by
        unfold appendFinding
        rw [List.map_map]
        apply List.map_congr_left
        intro p hp
        by_cases hpk : p.1 = assetKeyOf ir.2 ir.1
        · simp only [Function.comp_apply, if_pos hpk]
          rw [findingsFor_cons, if_pos hpk.symm, List.append_assoc]
          rfl
        · simp only [Function.comp_apply, if_neg hpk]
          rw [findingsFor_cons, if_neg (fun hh => hpk hh.symm)]
      have hfilterA : (ir :: t).filter
            (fun jr => !containsKey m (assetKeyOf jr.2 jr.1))
          = t.filter (fun jr => !containsKey
              (appendFinding m (assetKeyOf ir.2 ir.1)
                (_extract_vulnerability_finding ir.2 ir.1))
              (assetKeyOf jr.2 jr.1)) := by
        rw [List.filter_cons, if_neg (by rw [hck]; simp)]
        apply List.filter_congr
        intro x _
        rw [containsKey_appendFinding]
      rw [hmapA, ← hfilterA]
    · -- first occurrence of the key: a fresh asset is appended
      have hckf : containsKey m (assetKeyOf ir.2 ir.1) = false :=
        Bool.not_eq_true _ ▸ eq_false_of_ne_true hck
      rw [if_neg hck]
      rw [appendFinding_fresh m (assetKeyOf ir.2 ir.1) _ _ hckf]
      rw [ih _ hloct]
      have hmapB : ∀ (a : WizAsset),
          (m ++ [(assetKeyOf ir.2 ir.1, a)]).map (fun p =>
              (p.1, { p.2 with vulnerabilityFindings :=
                        p.2.vulnerabilityFindings ++ findingsFor p.1 t }))
          = m.map (fun p =>
              (p.1, { p.2 with vulnerabilityFindings :=
                        p.2.vulnerabilityFindings ++ findingsFor p.1 (ir :: t) }))
            ++ [(assetKeyOf ir.2 ir.1,
                { a with vulnerabilityFindings :=
                    a.vulnerabilityFindings ++ findingsFor (assetKeyOf ir.2 ir.1) t })] := by
        intro a
        rw [List.map_append]
        congr 1
        apply List.map_congr_left
        intro p hp
        have hpk := containsKey_false_forall m _ hckf p hp
        rw [findingsFor_cons, if_neg (fun hh => hpk hh.symm)]
      have hfindB : findingsFor (assetKeyOf ir.2 ir.1)
            (t.filter (fun jr => !containsKey m (assetKeyOf jr.2 jr.1)))
          = findingsFor (assetKeyOf ir.2 ir.1) t := by
        unfold findingsFor
        rw [List.filter_filter]
        congr 1
        apply List.filter_congr
        intro x _
        by_cases hx : assetKeyOf x.2 x.1 = assetKeyOf ir.2 ir.1
        · rw [hx]
          simp [hckf]
        · simp [hx]
      have hfilterB : ∀ (a : WizAsset),
          (t.filter (fun jr => !containsKey m (assetKeyOf jr.2 jr.1))).filter
            (fun jr => assetKeyOf jr.2 jr.1 ≠ assetKeyOf ir.2 ir.1)
          = t.filter (fun jr => !containsKey
              (m ++ [(assetKeyOf ir.2 ir.1, a)])
              (assetKeyOf jr.2 jr.1)) := by
        intro a
        rw [List.filter_filter]
        apply List.filter_congr
        intro x _
        rw [containsKey_append_single]
        by_cases h1 : assetKeyOf x.2 x.1 = assetKeyOf ir.2 ir.1
        · simp [h1]
        · by_cases h2 : containsKey m (assetKeyOf x.2 x.1) = true
          · simp [h1, h2]
          · simp [h1, h2]
            exact fun hh => h1 hh.symm
      rw [hmapB]
      rw [List.filter_cons, if_pos (by rw [hckf]; simp)]
      rw [show groupSpec config now
            ((ir :: t.filter (fun jr => !containsKey m (assetKeyOf jr.2 jr.1))))
          = (assetKeyOf ir.2 ir.1,
              { analysisDate := now ir.1,
                details := assetDetailsOf config ir.2 ir.1 (now ir.1),
                vulnerabilityFindings :=
                  _extract_vulnerability_finding ir.2 ir.1
                    :: findingsFor (assetKeyOf ir.2 ir.1)
                        (t.filter (fun jr => !containsKey m (assetKeyOf jr.2 jr.1))) })
            :: groupSpec config now
                ((t.filter (fun jr => !containsKey m (assetKeyOf jr.2 jr.1))).filter
                  (fun jr => assetKeyOf jr.2 jr.1 ≠ assetKeyOf ir.2 ir.1))
          from by rw [groupSpec]]
      rw [hfindB, hfilterB _]
      rw [List.append_assoc]
      rfl

/-- Grouping a nonempty list of results that all share one derived key yields
a single asset holding all their findings in order, with details and
timestamp from the head. -/
theorem groupSpec_const_key (config : ConverterConfig) (now : Nat → String)
    (k : String) (hd : Nat × SarifResult) (tl : List (Nat × SarifResult))
    (hall : ∀ x ∈ hd :: tl, assetKeyOf x.2 x.1 = k) :
    groupSpec config now (hd :: tl)
      = [(k, { analysisDate := now hd.1,
               details := assetDetailsOf config hd.2 hd.1 (now hd.1),
               vulnerabilityFindings :=
                 (hd :: tl).map
                   (fun ir => _extract_vulnerability_finding ir.2 ir.1) })] := by
  have hhd : assetKeyOf hd.2 hd.1 = k := hall hd (by simp)
  have h1 : tl.filter (fun jr => assetKeyOf jr.2 jr.1 ≠ assetKeyOf hd.2 hd.1) = [] := by
    rw [List.filter_eq_nil_iff]
    intro x hx
    simp [hall x (by simp [hx]), hhd]
  have h2 : findingsFor (assetKeyOf hd.2 hd.1) tl
      = tl.map (fun ir => _extract_vulnerability_finding ir.2 ir.1) := by
    unfold findingsFor
    rw [List.filter_eq_self.mpr]
    intro x hx
    simp [hall x (by simp [hx]), hhd]
  rw [groupSpec, h1, h2, hhd, groupSpec]
  rfl

/-- C3: a run of located results carrying exactly two distinct derived keys —
the first result's key `k1` first-seen — converts to a data source with
exactly two assets in first-seen key order: the first with every `k1` finding
in source order and its details/timestamp from the first result, the second
with every `k2` finding in source order and its details/timestamp from the
first `k2` result; subsequent occurrences of a key only append findings. -/
theorem run_grouping_two_assets
    (config : ConverterConfig) (now : Nat → String) (run_ts : String)
    (run : SarifRun) (run_idx : Nat) (k1 k2 : String)
    (r0 : SarifResult) (t : List SarifResult)
    (j : Nat) (rj : SarifResult) (l2 : List (Nat × SarifResult))
    (hres : run.results = r0 :: t)
    (hloc : ∀ ir ∈ run.results.enum, ir.2.locations ≠ [])
    (hne : k1 ≠ k2)
    (hdi : ∀ ir ∈ run.results.enum,
      assetKeyOf ir.2 ir.1 = k1 ∨ assetKeyOf ir.2 ir.1 = k2)
    (hk0 : assetKeyOf r0 0 = k1)
    (hfilter2 : run.results.enum.filter (fun ir => assetKeyOf ir.2 ir.1 = k2)
        = (j, rj) :: l2) :
    _convert_run config now run_ts run run_idx = .ok (some
      { id := toolNameOf run ++ "-run-" ++ toString run_idx,
        analysisDate := run_ts,
        assets := [
          { analysisDate := now 0,
            details := assetDetailsOf config r0 0 (now 0),
            vulnerabilityFindings := findingsFor k1 run.results.enum },
          { analysisDate := now j,
            details := assetDetailsOf config rj j (now j),
            vulnerabilityFindings := findingsFor k2 run.results.enum } ] }) ∧
    (findingsFor k1 run.results.enum).length
        = (run.results.enum.filter (fun ir => assetKeyOf ir.2 ir.1 = k1)).length ∧
    (findingsFor k2 run.results.enum).length
        = (run.results.enum.filter (fun ir => assetKeyOf ir.2 ir.1 = k2)).length := by
  refine ⟨?_, by unfold findingsFor; rw [List.length_map],
    by unfold findingsFor; rw [List.length_map]⟩
  rw [hres] at hloc hdi hfilter2 ⊢
  rw [List.enum_cons] at hloc hdi hfilter2
  have hfE : (t.enumFrom 1).filter (fun ir => assetKeyOf ir.2 ir.1 = k2)
      = (j, rj) :: l2 := by
    rw [List.filter_cons] at hfilter2
    rw [if_neg (by rw [hk0]; simp [hne])] at hfilter2
    exact hfilter2
  have hall : ∀ x ∈ (j, rj) :: l2, assetKeyOf x.2 x.1 = k2 := by
    intro x hx
    rw [← hfE] at hx
    simpa using (List.mem_filter.mp hx).2
  have hEfilter : (t.enumFrom 1).filter
        (fun jr => assetKeyOf jr.2 jr.1 ≠ k1)
      = (t.enumFrom 1).filter (fun jr => assetKeyOf jr.2 jr.1 = k2) := by
    apply List.filter_congr
    intro x hx
    rcases hdi x (List.mem_cons_of_mem _ hx) with h | h
    · simp [h, hne]
    · simp [h, Ne.symm hne]
  unfold _convert_run
  rw [hres, List.enum_cons]
  show (do
      let m ← foldResults config now (toolNameOf run) ((0, r0) :: t.enumFrom 1) []
      pure (some ({ id := toolNameOf run ++ "-run-" ++ toString run_idx,
                    analysisDate := run_ts,
                    assets := List.map Prod.snd m } : DataSource))
      : Except PyErr (Option DataSource)) = _
  rw [foldResults_grouping config now (toolNameOf run) ((0, r0) :: t.enumFrom 1) []
      hloc]
  have hfA : (((0, r0) :: t.enumFrom 1).filter
        (fun ir => !containsKey [] (assetKeyOf ir.2 ir.1)))
      = (0, r0) :: t.enumFrom 1 := by
    rw [List.filter_eq_self]
    intro x _
    rfl
  rw [hfA]
  rw [show groupSpec config now ((0, r0) :: t.enumFrom 1)
      = (assetKeyOf r0 0,
          { analysisDate := now 0,
            details := assetDetailsOf config r0 0 (now 0),
            vulnerabilityFindings :=
              _extract_vulnerability_finding r0 0
                :: findingsFor (assetKeyOf r0 0) (t.enumFrom 1) })
        :: groupSpec config now
            ((t.enumFrom 1).filter
              (fun jr => assetKeyOf jr.2 jr.1 ≠ assetKeyOf r0 0))
      from by rw [groupSpec]]
  rw [hk0, hEfilter, hfE]
  rw [groupSpec_const_key config now k2 (j, rj) l2 hall]
  rw [show findingsFor k1 ((0, r0) :: t.enumFrom 1)
      = _extract_vulnerability_finding r0 0 :: findingsFor k1 (t.enumFrom 1)
      from by rw [findingsFor_cons, if_pos hk0]]
  rw [show findingsFor k2 ((0, r0) :: t.enumFrom 1)
      = ((j, rj) :: l2).map (fun ir => _extract_vulnerability_finding ir.2 ir.1)
      from by
        unfold findingsFor
        rw [List.filter_cons, if_neg (by rw [hk0]; simp [hne]), hfE]]
  rfl

/-- A three-result run: two results at file `a.c` around one at `b.c`. -/
def c3Run : SarifRun :=
  ⟨none,
   [⟨some "r0", none, some "error", none, [⟨some ⟨some ⟨some "a.c"⟩⟩⟩]⟩,
    ⟨some "r1", none, some "warning", none, [⟨some ⟨some ⟨some "b.c"⟩⟩⟩]⟩,
    ⟨some "r2", none, some "note", none, [⟨some ⟨some ⟨some "a.c"⟩⟩⟩]⟩]⟩

/-- Concrete instance of the grouping theorem: keys `a.c`, `b.c`, `a.c` give
two assets, the first with two findings, the second with one. -/
theorem run_grouping_two_assets_witness :
    _convert_run ⟨"i", none, none⟩ (fun n => toString n) "rts" c3Run 0 = .ok (some
      { id := toolNameOf c3Run ++ "-run-" ++ toString 0,
        analysisDate := "rts",
        assets := [
          { analysisDate := toString 0,
            details := assetDetailsOf ⟨"i", none, none⟩ (c3Run.results.get ⟨0, by decide⟩)
              0 (toString 0),
            vulnerabilityFindings := findingsFor "a.c" c3Run.results.enum },
          { analysisDate := toString 1,
            details := assetDetailsOf ⟨"i", none, none⟩ (c3Run.results.get ⟨1, by decide⟩)
              1 (toString 1),
            vulnerabilityFindings := findingsFor "b.c" c3Run.results.enum } ] }) ∧
    (findingsFor "a.c" c3Run.results.enum).length
        = (c3Run.results.enum.filter
            (fun ir => assetKeyOf ir.2 ir.1 = "a.c")).length ∧
    (findingsFor "b.c" c3Run.results.enum).length
        = (c3Run.results.enum.filter
            (fun ir => assetKeyOf ir.2 ir.1 = "b.c")).length :=
  run_grouping_two_assets ⟨"i", none, none⟩ (fun n => toString n) "rts" c3Run 0
    "a.c" "b.c" (c3Run.results.get ⟨0, by decide⟩)
    (c3Run.results.drop 1) 1 (c3Run.results.get ⟨1, by decide⟩) []
    rfl (by decide) (by decide) (by decide) rfl rfl

/-- Concrete instance of the severity-lookup theorem. -/
theorem map_severity_total_lookup_witness :
    _map_severity "ErRoR" = "High" ∧
    (_extract_vulnerability_finding ⟨none, none, none, none, []⟩ 0).severity = "Medium" :=
  ⟨(map_severity_total_lookup "ErRoR" ⟨none, none, none, none, []⟩ 0).2.2.2.1 rfl,
   (map_severity_total_lookup "ErRoR" ⟨none, none, none, none, []⟩ 0).2.2.2.2.2 rfl⟩

end SarifWiz
